import Mathlib

/-!
Verification of the `rrr-make` core: a shallow embedding in Lean 4 of the
source-tree loader, the data-file discovery, the option encoding, the
registry lifecycle and the recursive record emitter, together with theorems
settling the specified properties against these definitions.

Conventions of the embedding:
* byte strings are `List Nat` (each entry a byte value);
* fallible Rust functions returning `Result` become `Except`;
* values of external library types (hash parameters, KDF parameters,
  signing keys, nonces) are opaque wrappers over `Nat`, since the core
  treats them as abstract data;
* external pure serialisation functions (TOML, PEM, RFC-3339 formatting)
  are parameters of the definitions that call them;
* Rust `panic!`/`expect` terminations are modelled as a distinguished
  `panicked` outcome, separate from propagated structured errors.
-/

namespace RrrMake

/-! ## Statistics carried by the recursive emitter (src/lib.rs) -/

structure MakeRecursiveStatistics where
  records_created : Nat
  records_updated : Nat
  records_unchanged : Nat
deriving DecidableEq, Repr

/-! ## Records as compared by the emitter (external `rrr::record::Record`)

The emitter only constructs a record (metadata plus data bytes) and compares
it for structural equality with the stored latest version, so the embedding
keeps exactly those components. -/

structure RecordMetadata where
  created_at : Option String
deriving DecidableEq, Repr

structure Record where
  metadata : RecordMetadata
  data : List Nat
deriving DecidableEq, Repr

/-- One element of the list returned by `Registry::list_record_versions`:
a version number together with the nonce under which it is stored. -/
structure RecordListVersionItem where
  record_version : Nat
  record_nonce : Nat
deriving DecidableEq, Repr

inductive SaveOutcome where
  | saved (version : Nat)
  | skipped
deriving DecidableEq, Repr

inductive SaveError where
  | readLatestFailed
deriving DecidableEq, Repr

/-- Embedding of `save_record_versioned` (src/lib.rs, lines 40-127).

The state of the output registry relevant to one call is the list of
existing versions returned by `list_record_versions` for the record's
hashed key, and the library read-back function `Record::read_version_with_nonce`,
passed here as `read_version`.  The Rust code takes `existing_versions.last()`
as the latest version. -/
def save_record_versioned
    (existing_versions : List RecordListVersionItem)
    (read_version : Nat → Nat → Option Record)
    (output_record : Record)
    (stats : MakeRecursiveStatistics) :
    Except SaveError (SaveOutcome × MakeRecursiveStatistics) :=
  match existing_versions.getLast? with
  | some latest_existing_version =>
    match read_version latest_existing_version.record_version
        latest_existing_version.record_nonce with
    | none => .error .readLatestFailed
    | some latest_existing_version_record =>
      if latest_existing_version_record = output_record then
        .ok (.skipped,
          { stats with records_unchanged := stats.records_unchanged + 1 })
      else
        .ok (.saved (latest_existing_version.record_version + 1),
          { stats with records_updated := stats.records_updated + 1 })
  | none =>
    .ok (.saved 0,
      { stats with records_created := stats.records_created + 1 })

end RrrMake

namespace RrrMake

/-- Claim C1: per processed record, the emitter writes version 0 and bumps
`records_created` when no prior version exists; emits nothing and bumps
`records_unchanged` when the latest prior version's record equals the new
output record; writes at `latest.version + 1` and bumps `records_updated`
when it differs.  Exactly one of the three counters is incremented. -/
theorem C1_save_record_versioned_cases
    (existing_versions : List RecordListVersionItem)
    (read_version : Nat → Nat → Option Record)
    (output_record : Record)
    (stats : MakeRecursiveStatistics) :
    (existing_versions.getLast? = none →
      save_record_versioned existing_versions read_version output_record stats =
        .ok (.saved 0,
          { stats with records_created := stats.records_created + 1 })) ∧
    (∀ latest rec, existing_versions.getLast? = some latest →
      read_version latest.record_version latest.record_nonce = some rec →
      ((rec = output_record →
        save_record_versioned existing_versions read_version output_record stats =
          .ok (.skipped,
            { stats with records_unchanged := stats.records_unchanged + 1 })) ∧
       (rec ≠ output_record →
        save_record_versioned existing_versions read_version output_record stats =
          .ok (.saved (latest.record_version + 1),
            { stats with records_updated := stats.records_updated + 1 })))) ∧
    (∀ outcome stats',
      save_record_versioned existing_versions read_version output_record stats =
        .ok (outcome, stats') →
      (stats' = { stats with records_created := stats.records_created + 1 } ∨
       stats' = { stats with records_updated := stats.records_updated + 1 } ∨
       stats' = { stats with records_unchanged := stats.records_unchanged + 1 }) ∧
      stats'.records_created + stats'.records_updated + stats'.records_unchanged =
        stats.records_created + stats.records_updated + stats.records_unchanged + 1) := by
  refine ⟨?_, ?_, ?_⟩
  · intro h
    simp [save_record_versioned, h]
  · intro latest rec hlast hread
    constructor
    · intro heq
      simp [save_record_versioned, hlast, hread, heq]
    · intro hne
      simp [save_record_versioned, hlast, hread, hne]
  · intro outcome stats' h
    unfold save_record_versioned at h
    split at h
    · split at h
      · cases h
      · split at h
        · cases h
          exact ⟨Or.inr (Or.inr rfl), by dsimp only; omega⟩
        · cases h
          exact ⟨Or.inr (Or.inl rfl), by dsimp only; omega⟩
    · cases h
      exact ⟨Or.inl rfl, by dsimp only; omega⟩

/-- Witness for C1 at a concrete input: an empty version list makes the
emitter write version 0 and increment `records_created`. -/
theorem C1_save_record_versioned_cases_witness :
    save_record_versioned [] (fun _ _ => none)
      ⟨⟨none⟩, [1, 2, 3]⟩ ⟨0, 0, 0⟩ =
      .ok (.saved 0, ⟨1, 0, 0⟩) :=
  (C1_save_record_versioned_cases [] (fun _ _ => none)
    ⟨⟨none⟩, [1, 2, 3]⟩ ⟨0, 0, 0⟩).1 rfl

/-! ## Record reading and split points (src/owned/record.rs, `OwnedRecord::read`)

A record's data files are given as the list of their byte contents, in the
order returned by `get_data_paths`; the chained reader is represented by
the full concatenated contents. -/

inductive SplittingStrategy where
  | Fill
  | Manual
deriving DecidableEq, Repr

structure OwnedRecordReadSuccess where
  read : List Nat
  split_at : Option (List Nat)
deriving DecidableEq, Repr

/-- Embedding of `OwnedRecord::read` (src/owned/record.rs, lines 330-370).
For `Manual` splitting the code pushes each opened file's byte length onto
`split_at` (the first file before the loop, the remaining files inside it)
and finally pops the last entry; for `Fill` no split vector is kept.
Returns `none` when there are no data files. -/
def OwnedRecord.read (data_files : List (List Nat))
    (splitting_strategy : SplittingStrategy) : Option OwnedRecordReadSuccess :=
  match data_files with
  | [] => none
  | data_paths_first :: data_paths_rest =>
    let split_at_init : Option (List Nat) :=
      match splitting_strategy with
      | .Fill => none
      | .Manual => some []
    let first_state : List Nat × Option (List Nat) :=
      (data_paths_first, split_at_init.map (fun l => l ++ [data_paths_first.length]))
    let final_state := data_paths_rest.foldl
      (fun acc file => (acc.1 ++ file, acc.2.map (fun l => l ++ [file.length])))
      first_state
    some { read := final_state.1, split_at := final_state.2.map List.dropLast }

theorem read_foldl_some (rest : List (List Nat)) (init : List Nat) (l : List Nat) :
    rest.foldl
      (fun (acc : List Nat × Option (List Nat)) file =>
        (acc.1 ++ file, acc.2.map (fun s => s ++ [file.length])))
      (init, some l) =
    (init ++ rest.flatten, some (l ++ rest.map List.length)) := by
  induction rest generalizing init l with
  | nil => simp
  | cons file rest ih => simp [ih, List.append_assoc]

theorem read_foldl_none (rest : List (List Nat)) (init : List Nat) :
    rest.foldl
      (fun (acc : List Nat × Option (List Nat)) file =>
        (acc.1 ++ file, acc.2.map (fun s => s ++ [file.length])))
      (init, none) =
    (init ++ rest.flatten, none) := by
  induction rest generalizing init with
  | nil => simp
  | cons file rest ih => simp [ih, List.append_assoc]

/-- Counterexample to claim C2: for three one-byte data files under `Manual`
splitting, `read` records the individual file sizes `[1, 1]`, whereas entry
`k` being the cumulative sum of the sizes of files `0..=k` (the claim's
formula, computed on the right) would give `[1, 2]`. -/
theorem C2_counterexample :
    OwnedRecord.read [[0], [0], [0]] SplittingStrategy.Manual =
      some ⟨[0, 0, 0], some [1, 1]⟩ ∧
    some [1, 1] ≠
      some ((List.range 2).map (fun k =>
        ((([[0], [0], [0]] : List (List Nat)).take (k + 1)).map List.length).sum)) := by
  constructor
  · rfl
  · decide

/-- Claim C2 as amended: for a record with at least one data file, `read`
concatenates the files in the discovered order; under `Manual` splitting the
recorded split points are the individual byte sizes of the files, one entry
per file boundary except the last (entry `k` is the size of file `k`);
under `Fill` splitting no split points are recorded. -/
theorem C2_read_concat_and_split_sizes (data_files : List (List Nat))
    (h : data_files ≠ []) :
    OwnedRecord.read data_files SplittingStrategy.Manual =
      some ⟨data_files.flatten, some ((data_files.map List.length).dropLast)⟩ ∧
    OwnedRecord.read data_files SplittingStrategy.Fill =
      some ⟨data_files.flatten, none⟩ := by
  match data_files with
  | [] => exact absurd rfl h
  | first :: rest =>
    constructor
    · simp [OwnedRecord.read, read_foldl_some]
    · simp [OwnedRecord.read, read_foldl_none]

/-- Witness for C2 at a concrete input: two files of sizes 2 and 1. -/
theorem C2_read_concat_and_split_sizes_witness :
    OwnedRecord.read [[7, 8], [9]] SplittingStrategy.Manual =
      some ⟨[7, 8, 9], some [2]⟩ ∧
    OwnedRecord.read [[7, 8], [9]] SplittingStrategy.Fill =
      some ⟨[7, 8, 9], none⟩ :=
  C2_read_concat_and_split_sizes [[7, 8], [9]] (by decide)

/-! ## The emitter's data-read step (src/lib.rs, lines 140-148)

`make_recursive` begins by calling `input_record.read().await?` and then
`.expect("Data not found.")` on the resulting `Option`: a propagated
structured error comes from the `?` operator, while a record with no data
files makes `read` return `Ok(None)` and the `expect` call aborts the
process with a panic. -/

inductive EmitterOutcome (α : Type) where
  | ok (value : α)
  | error (e : String)
  | panicked (msg : String)
deriving DecidableEq, Repr

/-- Embedding of the data-reading step of `make_recursive`
(src/lib.rs, lines 141-148). -/
def make_recursive_read_data (data_files : List (List Nat))
    (splitting_strategy : SplittingStrategy) : EmitterOutcome (List Nat) :=
  match OwnedRecord.read data_files splitting_strategy with
  | none => .panicked "Data not found."
  | some success => .ok success.read

/-- Claim C5, evaluated at the failing input: a source record with no data
file makes the emitter abort with the panic message "Data not found."
instead of propagating a structured error to the caller. -/
theorem C5_no_data_file_panics (splitting_strategy : SplittingStrategy) :
    make_recursive_read_data [] splitting_strategy = .panicked "Data not found." ∧
    ∀ e, make_recursive_read_data [] splitting_strategy ≠ .error e := by
  constructor
  · rfl
  · intro e
    cases splitting_strategy <;> simp [make_recursive_read_data, OwnedRecord.read]

/-- Witness for C5 at the concrete `Fill` strategy. -/
theorem C5_no_data_file_panics_witness :
    make_recursive_read_data [] SplittingStrategy.Fill =
      .panicked "Data not found." :=
  (C5_no_data_file_panics SplittingStrategy.Fill).1

/-! ## Data-file discovery (src/owned/record.rs, `OwnedRecord::get_data_paths`)

File names are byte strings (`List Nat`), as the code works on
`OsStr::as_encoded_bytes`.  The input of `get_data_paths` is the list of the
regular files of the record directory, in enumeration order. -/

abbrev FileName := List Nat

/-- The byte string `data` (the constant `FILE_STEM_DATA`). -/
def FILE_STEM_DATA : List Nat := [100, 97, 116, 97]

/-- Embedding of `splitn(2, |byte| *byte == b'.')` on a byte slice: the bytes
before the first `.` (byte 46), and the bytes after it when one occurs. -/
def splitFirstDot : List Nat → List Nat × Option (List Nat)
  | [] => ([], none)
  | b :: rest =>
    if b = 46 then ([], some rest)
    else
      let (stem, remainder) := splitFirstDot rest
      (b :: stem, remainder)

def isAsciiDigit (b : Nat) : Bool := 48 ≤ b && b ≤ 57

/-- Embedding of `str::from_utf8(first)` followed by `first.parse::<usize>()`:
`usize::from_str` accepts an optional leading `+` (byte 43) followed by one or
more ASCII digits, and rejects values that do not fit in 64 bits.  Bytes that
are not ASCII digits make either the UTF-8 conversion or the parse fail, with
the same effect. -/
def parseUsize (bytes : List Nat) : Option Nat :=
  let digits := match bytes with
    | 43 :: rest => rest
    | _ => bytes
  if digits ≠ [] ∧ digits.all isAsciiDigit then
    let value := digits.foldl (fun acc b => acc * 10 + (b - 48)) 0
    if value < 2 ^ 64 then some value else none
  else none

/-- Classification of one regular file of a record directory
(src/owned/record.rs, lines 386-412): `none` when the file is not a data
file (its first dot-separated segment is not `data`); `some none` for a
non-indexed data file (`data` alone, `data.<ext>` with a single further
segment, or an unparsable first segment); `some (some i)` for an indexed
data file `data.<i>.<ext>`, which requires at least one further
dot-separated segment after the index. -/
def classify_data_file (file_name : FileName) : Option (Option Nat) :=
  let (stem_bytes, extensions) := splitFirstDot file_name
  if stem_bytes = FILE_STEM_DATA then
    match extensions with
    | none => some none
    | some extensions_bytes =>
      let (first, remainder) := splitFirstDot extensions_bytes
      match remainder with
      | none => some none
      | some _ =>
        match parseUsize first with
        | some index => some (some index)
        | none => some none
  else none

/-- Strict order on `Option Nat` mirroring the derived Rust `Ord` for
`Option<usize>`: `None` sorts before any `Some`, `Some` values by magnitude. -/
def optNatLt : Option Nat → Option Nat → Bool
  | none, some _ => true
  | none, none => false
  | some _, none => false
  | some a, some b => decide (a < b)

def optNatLe (x y : Option Nat) : Bool := optNatLt x y || decide (x = y)

/-- Byte-lexicographic order on file names, mirroring the `Ord` used for the
`PathBuf` component of the sorted pairs (the paths share the directory
prefix, so they compare by their final components). -/
def bytesLe : List Nat → List Nat → Bool
  | [], _ => true
  | _ :: _, [] => false
  | a :: xs, b :: ys => if a < b then true else if b < a then false else bytesLe xs ys

/-- The total order used by `results.sort_unstable()` on the
`(Option<usize>, PathBuf)` pairs: lexicographic on index then path. -/
def entryLe (x y : Option Nat × FileName) : Bool :=
  optNatLt x.1 y.1 || (decide (x.1 = y.1) && bytesLe x.2 y.2)

def entryR (x y : Option Nat × FileName) : Prop := entryLe x y = true

instance : DecidableRel entryR := fun x y =>
  inferInstanceAs (Decidable (entryLe x y = true))

/-- Every structured failure of `get_data_paths` (the three `bail!` sites) is
of the spec's `DataFilesMalformed` kind; the constructors record which rule
was violated. -/
inductive DataPathsError where
  | mixed
  | duplicateIndex (index : Option Nat)
  | nonContiguous (missing : Nat)
deriving DecidableEq, Repr

/-- Embedding of the uniqueness scan over `results.array_windows::<2>()`:
the index of the first adjacent pair with equal indexes, if any. -/
def firstAdjacentDup : List (Option Nat × FileName) → Option (Option Nat)
  | x :: y :: rest => if x.1 = y.1 then some x.1 else firstAdjacentDup (y :: rest)
  | _ => none

/-- Embedding of the contiguity scan over `results.array_windows::<2>()`:
the first missing index, if any adjacent indexed pair is not consecutive. -/
def firstGap : List (Option Nat × FileName) → Option Nat
  | x :: y :: rest =>
    match x.1, y.1 with
    | some a, some b => if a + 1 ≠ b then some (a + 1) else firstGap (y :: rest)
    | _, _ => firstGap (y :: rest)
  | _ => none

/-- The `(index, path)` pairs accumulated by the enumeration loop of
`get_data_paths`, in directory-enumeration order. -/
def dataFileResults (dir_files : List FileName) : List (Option Nat × FileName) :=
  dir_files.filterMap (fun file_name =>
    (classify_data_file file_name).map (fun index => (index, file_name)))

/-- The local `indexed` flag of `get_data_paths`: whether the first sorted
pair carries an index (`matches!(results.first(), Some((Some(_), _)))`). -/
def head_indexed (sorted : List (Option Nat × FileName)) : Bool :=
  match sorted.head? with
  | some (some _, _) => true
  | _ => false

/-- The validation of the sorted pairs (src/owned/record.rs, lines 419-453):
mode-mixing check, index-uniqueness check, then contiguity check in indexed
mode; on success the paths in sorted order. -/
def data_paths_checks (sorted : List (Option Nat × FileName)) :
    Except DataPathsError (List FileName) :=
  if sorted.all (fun e => e.1.isSome == head_indexed sorted) then
    match firstAdjacentDup sorted with
    | some index => .error (.duplicateIndex index)
    | none =>
      if head_indexed sorted then
        match firstGap sorted with
        | some missing => .error (.nonContiguous missing)
        | none => .ok (sorted.map Prod.snd)
      else .ok (sorted.map Prod.snd)
  else .error .mixed

/-- Embedding of `OwnedRecord::get_data_paths` (src/owned/record.rs,
lines 380-454). -/
def get_data_paths (dir_files : List FileName) :
    Except DataPathsError (List FileName) :=
  let results := dataFileResults dir_files
  if results.isEmpty then .ok []
  else data_paths_checks (List.insertionSort entryR results)

theorem bytesLe_total : ∀ xs ys : List Nat, bytesLe xs ys = true ∨ bytesLe ys xs = true := by
  intro xs
  induction xs with
  | nil => intro ys; left; rfl
  | cons a xs ih =>
    intro ys
    cases ys with
    | nil => right; rfl
    | cons b ys =>
      by_cases h1 : a < b
      · left; simp [bytesLe, h1]
      · by_cases h2 : b < a
        · right; simp [bytesLe, h2, h1]
        · have hab : a = b := by omega
          subst hab
          rcases ih ys with h | h
          · left; simp [bytesLe, h1, h]
          · right; simp [bytesLe, h1, h]

theorem bytesLe_trans :
    ∀ (xs ys zs : List Nat), bytesLe xs ys = true → bytesLe ys zs = true →
      bytesLe xs zs = true := by
  intro xs
  induction xs with
  | nil => intro ys zs _ _; rfl
  | cons a xs ih =>
    intro ys zs h1 h2
    cases ys with
    | nil => simp [bytesLe] at h1
    | cons b ys =>
      cases zs with
      | nil => simp [bytesLe] at h2
      | cons c zs =>
        simp only [bytesLe] at h1 h2 ⊢
        by_cases hab : a < b
        · rw [if_pos hab] at h1
          by_cases hbc : b < c
          · rw [if_pos (by omega : a < c)]
          · rw [if_neg hbc] at h2
            by_cases hcb : c < b
            · rw [if_pos hcb] at h2; cases h2
            · have hbceq : b = c := by omega
              subst hbceq
              rw [if_pos hab]
        · rw [if_neg hab] at h1
          by_cases hba : b < a
          · rw [if_pos hba] at h1; cases h1
          · have hbaeq : a = b := by omega
            subst hbaeq
            rw [if_neg (by omega : ¬ a < a)] at h1
            by_cases hac : a < c
            · rw [if_pos hac]
            · rw [if_neg hac] at h2 ⊢
              by_cases hca : c < a
              · rw [if_pos hca] at h2; cases h2
              · rw [if_neg hca] at h2 ⊢
                exact ih ys zs h1 h2

theorem bytesLe_antisymm :
    ∀ (xs ys : List Nat), bytesLe xs ys = true → bytesLe ys xs = true → xs = ys := by
  intro xs
  induction xs with
  | nil =>
    intro ys _ h2
    cases ys with
    | nil => rfl
    | cons b ys => simp [bytesLe] at h2
  | cons a xs ih =>
    intro ys h1 h2
    cases ys with
    | nil => simp [bytesLe] at h1
    | cons b ys =>
      simp only [bytesLe] at h1 h2
      by_cases hab : a < b
      · rw [if_neg (by omega : ¬ b < a), if_pos hab] at h2
        cases h2
      · rw [if_neg hab] at h1
        by_cases hba : b < a
        · rw [if_pos hba] at h1; cases h1
        · rw [if_neg hba] at h1
          rw [if_neg hba, if_neg hab] at h2
          have hbaeq : a = b := by omega
          subst hbaeq
          rw [ih ys h1 h2]

theorem optNatLt_trichotomy (x y : Option Nat) :
    optNatLt x y = true ∨ x = y ∨ optNatLt y x = true := by
  cases x <;> cases y <;> simp [optNatLt] <;> omega

theorem optNatLt_irrefl (x : Option Nat) : optNatLt x x = false := by
  cases x <;> simp [optNatLt]

theorem optNatLt_asymm {x y : Option Nat}
    (h1 : optNatLt x y = true) (h2 : optNatLt y x = true) : False := by
  cases x <;> cases y <;> simp [optNatLt] at h1 h2 <;> omega

theorem optNatLt_trans {x y z : Option Nat}
    (h1 : optNatLt x y = true) (h2 : optNatLt y z = true) : optNatLt x z = true := by
  cases x <;> cases y <;> cases z <;> simp [optNatLt] at h1 h2 ⊢ <;> omega

instance : IsTotal (Option Nat × FileName) entryR where
  total x y := by
    unfold entryR entryLe
    rcases optNatLt_trichotomy x.1 y.1 with h | h | h
    · left; simp [h]
    · rcases bytesLe_total x.2 y.2 with hb | hb
      · left; simp [h, hb]
      · right; simp [h.symm, hb]
    · right; simp [h]

theorem entryR_cases {x y : Option Nat × FileName} (h : entryR x y) :
    optNatLt x.1 y.1 = true ∨ (x.1 = y.1 ∧ bytesLe x.2 y.2 = true) := by
  unfold entryR entryLe at h
  rcases Bool.or_eq_true_iff.mp h with h | h
  · exact Or.inl h
  · rcases Bool.and_eq_true_iff.mp h with ⟨h1, h2⟩
    exact Or.inr ⟨of_decide_eq_true h1, h2⟩

instance : IsTrans (Option Nat × FileName) entryR where
  trans x y z hxy hyz := by
    rcases entryR_cases hxy with h1 | ⟨h1, h1b⟩ <;>
      rcases entryR_cases hyz with h2 | ⟨h2, h2b⟩
    · unfold entryR entryLe
      simp [optNatLt_trans h1 h2]
    · unfold entryR entryLe
      rw [← h2]
      simp [h1]
    · unfold entryR entryLe
      rw [h1]
      simp [h2]
    · unfold entryR entryLe
      rw [h1, h2]
      simp [bytesLe_trans _ _ _ h1b h2b]

instance : IsAntisymm (Option Nat × FileName) entryR where
  antisymm x y hxy hyx := by
    rcases entryR_cases hxy with h1 | ⟨h1, h1b⟩ <;>
      rcases entryR_cases hyx with h2 | ⟨h2, h2b⟩
    · exact (optNatLt_asymm h1 h2).elim
    · rw [h2, optNatLt_irrefl] at h1
      cases h1
    · rw [h1, optNatLt_irrefl] at h2
      cases h2
    · exact Prod.ext h1 (bytesLe_antisymm _ _ h1b h2b)

theorem dataFileResults_map_fst (dir_files : List FileName) :
    (dataFileResults dir_files).map Prod.fst = dir_files.filterMap classify_data_file := by
  induction dir_files with
  | nil => rfl
  | cons f fs ih =>
    unfold dataFileResults at ih ⊢
    cases h : classify_data_file f <;> simp [List.filterMap_cons, h, ih]

theorem dataFileResults_map_snd (dir_files : List FileName) :
    (dataFileResults dir_files).map Prod.snd
      = dir_files.filter (fun f => (classify_data_file f).isSome) := by
  induction dir_files with
  | nil => rfl
  | cons f fs ih =>
    unfold dataFileResults at ih ⊢
    cases h : classify_data_file f <;> simp [List.filterMap_cons, List.filter_cons, h, ih]

theorem dataFileResults_classify (dir_files : List FileName) :
    ∀ p ∈ dataFileResults dir_files, classify_data_file p.2 = some p.1 := by
  induction dir_files with
  | nil => intro p hp; cases hp
  | cons f fs ih =>
    intro p hp
    unfold dataFileResults at hp
    cases h : classify_data_file f with
    | none =>
      simp only [List.filterMap_cons, h] at hp
      exact ih p hp
    | some index =>
      simp only [List.filterMap_cons, h] at hp
      rcases List.mem_cons.mp hp with rfl | hp
      · exact h
      · exact ih p hp

theorem eq_map_some_of_all_isSome :
    ∀ (ks : List (Option Nat)), (∀ k ∈ ks, k.isSome = true) →
      ks = (ks.filterMap id).map some := by
  intro ks
  induction ks with
  | nil => intro _; rfl
  | cons k ks ih =>
    intro h
    cases k with
    | none => exact absurd (h none (List.mem_cons_self _ _)) (by simp)
    | some a =>
      have hrest : (some a :: ks).filterMap id = a :: ks.filterMap id := by
        simp [List.filterMap_cons]
      rw [hrest, List.map_cons, ← ih (fun k hk => h k (List.mem_cons_of_mem _ hk))]

theorem filterMap_id_map_some (l : List Nat) : (l.map some).filterMap id = l := by
  induction l with
  | nil => rfl
  | cons a l ih => simp [List.filterMap_cons, ih]

theorem filter_isNone_map_some (l : List Nat) :
    (l.map some).filter Option.isNone = [] := by
  induction l with
  | nil => rfl
  | cons a l ih => simp [List.filter_cons, ih]

theorem firstGap_none_keys :
    ∀ (pairs : List (Option Nat × FileName)) (a : Nat) (x : FileName),
      (∀ p ∈ pairs, p.1.isSome = true) → firstGap pairs = none →
      pairs.head? = some (some a, x) →
      pairs.map Prod.fst = (List.range' a pairs.length).map some := by
  intro pairs
  induction pairs with
  | nil => intro a x _ _ hh; cases hh
  | cons p ps ih =>
    intro a x hall hgap hh
    have hp : p = (some a, x) := by
      simpa using hh
    subst hp
    cases ps with
    | nil => simp [List.range'_succ]
    | cons q qs =>
      have hq : q.1.isSome = true := hall q (by simp)
      obtain ⟨b, hb⟩ := Option.isSome_iff_exists.mp hq
      unfold firstGap at hgap
      rw [hb] at hgap
      simp only at hgap
      by_cases hab : a + 1 ≠ b
      · rw [if_pos hab] at hgap
        cases hgap
      · rw [if_neg hab] at hgap
        have hb' : b = a + 1 := by omega
        subst hb'
        have htail := ih (a + 1) q.2
          (fun r hr => hall r (List.mem_cons_of_mem _ hr)) hgap
          (by simp [← hb])
        show Prod.fst (some a, x) :: List.map Prod.fst (q :: qs) =
          List.map some (List.range' a ((q :: qs).length + 1))
        rw [List.range'_succ, htail, List.map_cons]

theorem firstGap_of_range :
    ∀ (pairs : List (Option Nat × FileName)) (a : Nat),
      pairs.map Prod.fst = (List.range' a pairs.length).map some →
      firstGap pairs = none := by
  intro pairs
  induction pairs with
  | nil => intro a _; rfl
  | cons p ps ih =>
    intro a h
    cases ps with
    | nil => rfl
    | cons q qs =>
      rw [List.length_cons, List.length_cons, List.range'_succ, List.range'_succ] at h
      simp only [List.map_cons, List.cons.injEq] at h
      obtain ⟨hp1, hq1, hrest⟩ := h
      show firstGap (p :: q :: qs) = none
      unfold firstGap
      rw [hp1, hq1]
      simp only [if_neg (by omega : ¬ (a + 1 ≠ a + 1))]
      apply ih (a + 1)
      rw [List.length_cons, List.range'_succ, List.map_cons, List.map_cons]
      rw [hq1, hrest]

theorem firstAdjacentDup_of_range :
    ∀ (pairs : List (Option Nat × FileName)) (a : Nat),
      pairs.map Prod.fst = (List.range' a pairs.length).map some →
      firstAdjacentDup pairs = none := by
  intro pairs
  induction pairs with
  | nil => intro a _; rfl
  | cons p ps ih =>
    intro a h
    cases ps with
    | nil => rfl
    | cons q qs =>
      rw [List.length_cons, List.length_cons, List.range'_succ, List.range'_succ] at h
      simp only [List.map_cons, List.cons.injEq] at h
      obtain ⟨hp1, hq1, hrest⟩ := h
      show firstAdjacentDup (p :: q :: qs) = none
      unfold firstAdjacentDup
      rw [hp1, hq1]
      rw [if_neg (by simp)]
      apply ih (a + 1)
      rw [List.length_cons, List.range'_succ, List.map_cons, List.map_cons]
      rw [hq1, hrest]

theorem sorted_le_range' : ∀ (n m : Nat), List.Sorted (· ≤ ·) (List.range' m n) := by
  intro n
  induction n with
  | zero => intro m; exact List.sorted_nil
  | succ n ih =>
    intro m
    rw [List.range'_succ]
    refine List.sorted_cons.mpr ⟨?_, ih (m + 1)⟩
    intro b hb
    have := List.mem_range'_1.mp hb
    omega

theorem optNatLe_iff {a b : Option Nat} :
    optNatLe a b = true ↔ (optNatLt a b = true ∨ a = b) := by
  unfold optNatLe
  simp [Bool.or_eq_true]

theorem optNatLe_some_iff {a b : Nat} : optNatLe (some a) (some b) = true ↔ a ≤ b := by
  rw [optNatLe_iff]
  simp only [optNatLt, decide_eq_true_eq, Option.some.injEq]
  omega

theorem sorted_keys_of_sorted {pairs : List (Option Nat × FileName)}
    (h : List.Sorted entryR pairs) :
    List.Sorted (fun a b : Option Nat => optNatLe a b = true) (pairs.map Prod.fst) := by
  refine List.pairwise_map.mpr (h.imp ?_)
  intro x y hxy
  rcases entryR_cases hxy with h1 | ⟨h1, _⟩
  · exact optNatLe_iff.mpr (Or.inl h1)
  · exact optNatLe_iff.mpr (Or.inr h1)

theorem map_snd_filterMap_classify (pairs : List (Option Nat × FileName))
    (h : ∀ p ∈ pairs, classify_data_file p.2 = some p.1) :
    (pairs.map Prod.snd).filterMap classify_data_file = pairs.map Prod.fst := by
  induction pairs with
  | nil => rfl
  | cons p ps ih =>
    simp only [List.map_cons, List.filterMap_cons, h p (List.mem_cons_self _ _)]
    rw [ih (fun q hq => h q (List.mem_cons_of_mem _ hq))]

/-- The claim's well-formedness conditions on the classified data files,
stated on the list of classification keys: the two modes are not mixed
(there is no non-indexed file, or no indexed file); at most one non-indexed
file exists; and the indexes present form, in some order without repetition,
a contiguous run — a permutation of `range' m n` starting at some `m`. -/
def keysWellFormed (ks : List (Option Nat)) : Prop :=
  ((ks.filter Option.isNone).length = 0 ∨ ks.filterMap id = []) ∧
  (ks.filter Option.isNone).length ≤ 1 ∧
  ∃ m, (ks.filterMap id).Perm (List.range' m (ks.filterMap id).length)

/-- Claim C3's well-formedness predicate on the files of a record directory,
following the spec's four discovery rules. -/
def dataFilesWellFormed (dir_files : List FileName) : Prop :=
  keysWellFormed (dir_files.filterMap classify_data_file)

theorem keysWellFormed_perm {ks ks' : List (Option Nat)} (h : ks.Perm ks') :
    keysWellFormed ks ↔ keysWellFormed ks' := by
  unfold keysWellFormed
  have h1 : (ks.filter Option.isNone).length = (ks'.filter Option.isNone).length :=
    (h.filter _).length_eq
  have h2 : (ks.filterMap id).Perm (ks'.filterMap id) := h.filterMap id
  rw [h1, h2.length_eq]
  refine and_congr (or_congr Iff.rfl ?_) (and_congr Iff.rfl ?_)
  · constructor
    · intro he
      exact (he ▸ h2).symm.eq_nil
    · intro he
      exact (he ▸ h2.symm).symm.eq_nil
  · constructor
    · rintro ⟨m, hm⟩
      exact ⟨m, h2.symm.trans hm⟩
    · rintro ⟨m, hm⟩
      exact ⟨m, h2.trans hm⟩

theorem exceptIsOk_error {e : Type} {a : Type} (err : e) :
    (Except.error err : Except e a).isOk = false := rfl

theorem data_paths_checks_mixed (sorted : List (Option Nat × FileName))
    (h : sorted.all (fun x => x.1.isSome == head_indexed sorted) = false) :
    data_paths_checks sorted = .error .mixed := by
  unfold data_paths_checks
  rw [h]
  rfl

theorem data_paths_checks_dup (sorted : List (Option Nat × FileName)) (index : Option Nat)
    (h1 : sorted.all (fun x => x.1.isSome == head_indexed sorted) = true)
    (h2 : firstAdjacentDup sorted = some index) :
    data_paths_checks sorted = .error (.duplicateIndex index) := by
  unfold data_paths_checks
  rw [h1, h2]
  rfl

theorem data_paths_checks_gap (sorted : List (Option Nat × FileName)) (missing : Nat)
    (h1 : sorted.all (fun x => x.1.isSome == head_indexed sorted) = true)
    (h2 : firstAdjacentDup sorted = none)
    (h3 : head_indexed sorted = true)
    (h4 : firstGap sorted = some missing) :
    data_paths_checks sorted = .error (.nonContiguous missing) := by
  unfold data_paths_checks
  rw [h1, h2, h3, h4]
  rfl

theorem data_paths_checks_ok_indexed (sorted : List (Option Nat × FileName))
    (h1 : sorted.all (fun x => x.1.isSome == head_indexed sorted) = true)
    (h2 : firstAdjacentDup sorted = none)
    (h3 : head_indexed sorted = true)
    (h4 : firstGap sorted = none) :
    data_paths_checks sorted = .ok (sorted.map Prod.snd) := by
  unfold data_paths_checks
  rw [h1, h2, h3, h4]
  rfl

theorem data_paths_checks_ok_nonindexed (sorted : List (Option Nat × FileName))
    (h1 : sorted.all (fun x => x.1.isSome == head_indexed sorted) = true)
    (h2 : firstAdjacentDup sorted = none)
    (h3 : head_indexed sorted = false) :
    data_paths_checks sorted = .ok (sorted.map Prod.snd) := by
  unfold data_paths_checks
  rw [h1, h2, h3]
  rfl

theorem all_eq_false_of_not_true {l : List (Option Nat × FileName)}
    {f : (Option Nat × FileName) → Bool} (h : ¬ l.all f = true) : l.all f = false := by
  revert h
  cases l.all f <;> simp

theorem data_paths_checks_ok_val (sorted : List (Option Nat × FileName))
    (l : List FileName) (h : data_paths_checks sorted = .ok l) :
    l = sorted.map Prod.snd := by
  by_cases h1 : sorted.all (fun x => x.1.isSome == head_indexed sorted) = true
  case neg =>
    rw [data_paths_checks_mixed sorted (all_eq_false_of_not_true h1)] at h
    cases h
  case pos =>
    cases h2 : firstAdjacentDup sorted with
    | some index =>
      rw [data_paths_checks_dup sorted index h1 h2] at h
      cases h
    | none =>
      cases h3 : head_indexed sorted with
      | true =>
        cases h4 : firstGap sorted with
        | some missing =>
          rw [data_paths_checks_gap sorted missing h1 h2 h3 h4] at h
          cases h
        | none =>
          rw [data_paths_checks_ok_indexed sorted h1 h2 h3 h4] at h
          exact (Except.ok.inj h).symm
      | false =>
        rw [data_paths_checks_ok_nonindexed sorted h1 h2 h3] at h
        exact (Except.ok.inj h).symm

theorem data_paths_checks_isOk_iff (sorted : List (Option Nat × FileName))
    (hs : List.Sorted entryR sorted) (hne : sorted ≠ []) :
    (data_paths_checks sorted).isOk = true ↔ keysWellFormed (sorted.map Prod.fst) := by
  cases sorted with
  | nil => exact absurd rfl hne
  | cons p rest =>
  obtain ⟨k, name⟩ := p
  cases k with
  | some a =>
    constructor
    · intro hok
      by_cases h1 : ((some a, name) :: rest).all
          (fun x => x.1.isSome == head_indexed ((some a, name) :: rest)) = true
      case neg =>
        rw [data_paths_checks_mixed _ (all_eq_false_of_not_true h1),
          exceptIsOk_error] at hok
        cases hok
      case pos =>
      cases h2 : firstAdjacentDup ((some a, name) :: rest) with
      | some index =>
        rw [data_paths_checks_dup _ index h1 h2, exceptIsOk_error] at hok
        cases hok
      | none =>
        cases h4 : firstGap ((some a, name) :: rest) with
        | some missing =>
          rw [data_paths_checks_gap _ missing h1 h2 rfl h4, exceptIsOk_error] at hok
          cases hok
        | none =>
          have hall : ∀ q ∈ (some a, name) :: rest, q.1.isSome = true := by
            intro q hq
            simpa [head_indexed] using List.all_eq_true.mp h1 q hq
          have hkeys := firstGap_none_keys _ a name hall h4 rfl
          rw [hkeys]
          refine ⟨Or.inl ?_, ?_, ⟨a, ?_⟩⟩
          · rw [filter_isNone_map_some]
            rfl
          · rw [filter_isNone_map_some]
            simp
          · simp only [filterMap_id_map_some, List.length_range']
            exact List.Perm.refl _
    · intro hwf
      obtain ⟨hmix, hcount, m, hperm⟩ := hwf
      have hfm : (((some a, name) :: rest).map Prod.fst).filterMap id ≠ [] := by
        simp [List.filterMap_cons]
      have hzero : ((((some a, name) :: rest).map Prod.fst).filter Option.isNone).length = 0 :=
        hmix.resolve_right hfm
      have hallsome : ∀ kk ∈ ((some a, name) :: rest).map Prod.fst, kk.isSome = true := by
        intro kk hk
        have hnil := List.length_eq_zero.mp hzero
        have := List.filter_eq_nil_iff.mp hnil kk hk
        cases kk with
        | none => exact absurd (by rfl) this
        | some b => rfl
      have hkeq := eq_map_some_of_all_isSome _ hallsome
      have hsortedjs :
          List.Sorted (· ≤ ·) ((((some a, name) :: rest).map Prod.fst).filterMap id) := by
        have hp1 := sorted_keys_of_sorted hs
        rw [hkeq] at hp1
        have hp2 := List.pairwise_map.mp hp1
        exact hp2.imp (fun hab => optNatLe_some_iff.mp hab)
      have hrange := List.eq_of_perm_of_sorted hperm hsortedjs (sorted_le_range' _ m)
      have hlen : ((((some a, name) :: rest).map Prod.fst).filterMap id).length =
          ((some a, name) :: rest).length := by
        have := congrArg List.length hkeq
        simp only [List.length_map] at this ⊢
        omega
      have hkeys : ((some a, name) :: rest).map Prod.fst =
          (List.range' m (((some a, name) :: rest).length)).map some := by
        rw [hkeq, hrange, hlen]
      have hall : (((some a, name) :: rest).all
          (fun x => x.1.isSome == head_indexed ((some a, name) :: rest))) = true := by
        refine List.all_eq_true.mpr ?_
        intro q hq
        have hmem : q.1 ∈ ((some a, name) :: rest).map Prod.fst :=
          List.mem_map_of_mem _ hq
        rw [hkeys] at hmem
        obtain ⟨b, _, hb⟩ := List.mem_map.mp hmem
        rw [← hb]
        rfl
      rw [data_paths_checks_ok_indexed _ hall
        (firstAdjacentDup_of_range _ m hkeys) rfl (firstGap_of_range _ m hkeys)]
      rfl
  | none =>
    constructor
    · intro hok
      by_cases h1 : ((none, name) :: rest).all
          (fun x => x.1.isSome == head_indexed ((none, name) :: rest)) = true
      case neg =>
        rw [data_paths_checks_mixed _ (all_eq_false_of_not_true h1),
          exceptIsOk_error] at hok
        cases hok
      case pos =>
      cases h2 : firstAdjacentDup ((none, name) :: rest) with
      | some index =>
        rw [data_paths_checks_dup _ index h1 h2, exceptIsOk_error] at hok
        cases hok
      | none =>
        cases rest with
        | nil =>
          refine ⟨Or.inr rfl, by simp [List.filter_cons], ⟨0, by simp⟩⟩
        | cons q qs =>
          exfalso
          have hq : q.1.isSome = false := by
            simpa [head_indexed] using List.all_eq_true.mp h1 q (by simp)
          have hq0 : q.1 = none := Option.not_isSome_iff_eq_none.mp (by simp [hq])
          have hdup2 : firstAdjacentDup ((none, name) :: q :: qs) = some none := by
            unfold firstAdjacentDup
            rw [if_pos (by simp [hq0])]
          rw [h2] at hdup2
          cases hdup2
    · intro hwf
      obtain ⟨hmix, hcount, _⟩ := hwf
      have hfm : (((none, name) :: rest).map Prod.fst).filterMap id = [] := by
        rcases hmix with h0 | hfm
        · exfalso
          simp [List.filter_cons] at h0
        · exact hfm
      have hallnone : ∀ kk ∈ ((none, name) :: rest).map Prod.fst, kk = none := by
        intro kk hk
        simpa using List.filterMap_eq_nil_iff.mp hfm kk hk
      have hfull : (((none, name) :: rest).map Prod.fst).filter Option.isNone =
          ((none, name) :: rest).map Prod.fst := by
        rw [List.filter_eq_self]
        intro kk hk
        rw [hallnone kk hk]
        rfl
      have hlen : ((none, name) :: rest).length ≤ 1 := by
        rw [hfull] at hcount
        simpa using hcount
      have hrest : rest = [] := by
        cases rest with
        | nil => rfl
        | cons q qs => simp at hlen
      subst hrest
      rfl

/-- Claim C3: data-file discovery succeeds exactly when the discovery rules
hold — modes not mixed, indexes unique and forming a contiguous run from the
smallest present index, at most one non-indexed file; any violation is a
`DataPathsError` (the structured error of the spec's `DataFilesMalformed`
kind); zero data files is not an error and yields the empty list; a
successful result consists of exactly the data files, ordered by index. -/
theorem C3_get_data_paths_characterisation (dir_files : List FileName) :
    ((get_data_paths dir_files).isOk = true ↔ dataFilesWellFormed dir_files) ∧
    (dir_files.filterMap classify_data_file = [] →
      get_data_paths dir_files = .ok []) ∧
    (∀ l, get_data_paths dir_files = .ok l →
      l.Perm (dir_files.filter (fun f => (classify_data_file f).isSome)) ∧
      List.Sorted (fun a b : Option Nat => optNatLe a b = true)
        (l.filterMap classify_data_file)) := by
  by_cases hres : dataFileResults dir_files = []
  · have hget : get_data_paths dir_files = .ok [] := by
      unfold get_data_paths
      rw [hres]
      rfl
    have hcl : dir_files.filterMap classify_data_file = [] := by
      rw [← dataFileResults_map_fst, hres]
      rfl
    refine ⟨?_, fun _ => hget, ?_⟩
    · rw [hget]
      unfold dataFilesWellFormed keysWellFormed
      rw [hcl]
      simp [Except.isOk, Except.toBool]
    · intro l hl
      rw [hget] at hl
      obtain rfl := (Except.ok.inj hl).symm
      constructor
      · have hfe : dir_files.filter (fun f => (classify_data_file f).isSome) = [] := by
          rw [← dataFileResults_map_snd, hres]
          rfl
        rw [hfe]
      · simp
  · have hresF : (dataFileResults dir_files).isEmpty = false := by
      cases he : (dataFileResults dir_files).isEmpty
      · rfl
      · exact absurd (List.isEmpty_iff.mp he) hres
    have hgete : get_data_paths dir_files =
        data_paths_checks (List.insertionSort entryR (dataFileResults dir_files)) := by
      unfold get_data_paths
      simp only [hresF]
      rfl
    have hperm := List.perm_insertionSort entryR (dataFileResults dir_files)
    have hsorted := List.sorted_insertionSort entryR (dataFileResults dir_files)
    have hsne : List.insertionSort entryR (dataFileResults dir_files) ≠ [] := by
      intro h0
      exact hres ((h0 ▸ hperm).symm.eq_nil)
    refine ⟨?_, ?_, ?_⟩
    · rw [hgete, data_paths_checks_isOk_iff _ hsorted hsne]
      unfold dataFilesWellFormed
      rw [← dataFileResults_map_fst]
      exact keysWellFormed_perm (hperm.map Prod.fst)
    · intro hcl
      exfalso
      apply hres
      have hmf := dataFileResults_map_fst dir_files
      rw [hcl] at hmf
      exact List.map_eq_nil.mp hmf
    · intro l hl
      rw [hgete] at hl
      have hlval := data_paths_checks_ok_val _ _ hl
      subst hlval
      constructor
      · rw [← dataFileResults_map_snd]
        exact hperm.map Prod.snd
      · have hcls : ∀ p ∈ List.insertionSort entryR (dataFileResults dir_files),
            classify_data_file p.2 = some p.1 := by
          intro p hp
          exact dataFileResults_classify dir_files p (hperm.subset hp)
        rw [map_snd_filterMap_classify _ hcls]
        exact sorted_keys_of_sorted hsorted

/-- Witness for C3 at concrete inputs: a directory with a single non-data
file yields the empty list; a directory with the two indexed files
`data.0.a` and `data.1.b` passes discovery. -/
theorem C3_get_data_paths_characterisation_witness :
    get_data_paths [[120]] = .ok [] ∧
    (get_data_paths [[100, 97, 116, 97, 46, 48, 46, 97],
      [100, 97, 116, 97, 46, 49, 46, 98]]).isOk = true :=
  ⟨(C3_get_data_paths_characterisation [[120]]).2.1 rfl,
   (C3_get_data_paths_characterisation _).1.mpr
     ⟨Or.inl (by decide), by decide, 0, by decide⟩⟩

theorem splitFirstDot_all_digits (ds : List Nat) (h : ds.all isAsciiDigit = true) :
    splitFirstDot ds = (ds, none) := by
  induction ds with
  | nil => rfl
  | cons d ds ih =>
    simp only [List.all_cons, Bool.and_eq_true] at h
    have hd : ¬ d = 46 := by
      have := h.1
      unfold isAsciiDigit at this
      simp at this
      omega
    simp [splitFirstDot, hd, ih h.2]

theorem splitFirstDot_data_lead (rest : List Nat) :
    splitFirstDot (FILE_STEM_DATA ++ 46 :: rest) = (FILE_STEM_DATA, some rest) := rfl

/-- Claim C10: a file `data.<N>` with a decimal-integer segment but no
further dot-separated segment is classified as a non-indexed data file;
indexed classification needs a further segment (`data.<N>.<ext>`); hence
`data.0` next to `data.0.bin` is a mode-mixing error, not a duplicate
index.  The general statement quantifies over every non-empty all-digit
segment; the closed conjuncts evaluate the discovery on `data.0` and
`data.0.bin`. -/
theorem C10_indexed_requires_trailing_segment :
    (∀ ds : List Nat, ds ≠ [] → ds.all isAsciiDigit = true →
      classify_data_file (FILE_STEM_DATA ++ 46 :: ds) = some none) ∧
    classify_data_file [100, 97, 116, 97, 46, 48] = some none ∧
    classify_data_file [100, 97, 116, 97, 46, 48, 46, 98, 105, 110] = some (some 0) ∧
    get_data_paths [[100, 97, 116, 97, 46, 48],
      [100, 97, 116, 97, 46, 48, 46, 98, 105, 110]] = .error .mixed := by
  refine ⟨?_, rfl, rfl, rfl⟩
  intro ds hne hdig
  unfold classify_data_file
  rw [splitFirstDot_data_lead]
  simp only [if_pos rfl]
  rw [splitFirstDot_all_digits ds hdig]
  rfl

/-- Witness for C10 at the concrete segment `0`. -/
theorem C10_indexed_requires_trailing_segment_witness :
    classify_data_file (FILE_STEM_DATA ++ 46 :: [48]) = some none :=
  C10_indexed_requires_trailing_segment.1 [48] (by decide) (by decide)

/-! ## Option encoding (src/util/serde.rs)

TOML values are modelled by a small value type.  The payload type `T` is
generic in the code (`T : Serialize + Deserialize`), so its serialisation
is a parameter pair `(enc, dec)`.  `ExplicitOption` serialises untagged:
the absent variant as the sentinel string `"none"` (via `ExplicitNone`),
the present variant as the natural form of `T`; deserialisation tries the
`ExplicitNone` variant first — its visitor accepts exactly the string
`"none"` — and otherwise deserialises as `T`. -/

inductive Toml where
  | str (s : String)
  | int (n : Int)
  | table (kvs : List (String × Toml))

inductive ExplicitOption (T : Type) where
  | None
  | Some (v : T)
deriving DecidableEq, Repr

/-- `DoubleOption<T> = Option<ExplicitOption<T>>`: `none` is *unset*,
`some .None` is *explicit none*, `some (.Some v)` is *some value*. -/
abbrev DoubleOption (T : Type) : Type := Option (ExplicitOption T)

/-- `From<Option<T>> for ExplicitOption<T>`. -/
def ExplicitOption.ofOption {T : Type} : Option T → ExplicitOption T
  | Option.none => .None
  | Option.some v => .Some v

/-- `From<ExplicitOption<T>> for Option<T>`. -/
def ExplicitOption.toOption {T : Type} : ExplicitOption T → Option T
  | .None => Option.none
  | .Some v => Option.some v

/-- Serialisation of `ExplicitOption<T>`: the `None` variant emits the
string `"none"` (the `ExplicitNone` serialiser), the `Some` variant the
natural serialised form of `T`. -/
def ExplicitOption.serialize {T : Type} (enc : T → Toml) :
    ExplicitOption T → Toml
  | .None => .str "none"
  | .Some v => enc v

/-- Untagged deserialisation of `ExplicitOption<T>`: the `ExplicitNone`
visitor succeeds exactly on the string `"none"`; any other value is
deserialised as `T`. -/
def ExplicitOption.deserialize {T : Type} (dec : Toml → Option T) (t : Toml) :
    Option (ExplicitOption T) :=
  match t with
  | .str s => if s = "none" then Option.some .None else (dec t).map .Some
  | _ => (dec t).map .Some

/-- Serialisation of a `DoubleOption<T>` struct field: an unset field is
omitted from the document (`none`), a present field carries the
`ExplicitOption` serialisation. -/
def serialize_double_option_field {T : Type} (enc : T → Toml) :
    DoubleOption T → Option Toml
  | Option.none => Option.none
  | Option.some eo => Option.some (eo.serialize enc)

/-- Deserialisation of a `DoubleOption<T>` struct field: a missing key
yields the unset state, a present value is deserialised as
`ExplicitOption<T>`. -/
def deserialize_double_option_field {T : Type} (dec : Toml → Option T) :
    Option Toml → Option (DoubleOption T)
  | Option.none => Option.some Option.none
  | Option.some t => (ExplicitOption.deserialize dec t).map Option.some

/-- Counterexample to claim C6: the claim quantifies over every
serialisable `T`; for `T = String` and the value `"none"`, the some-state
serialises to the string `"none"` and deserialises back to the
explicit-none state, so the two states are not distinguishable after a
round-trip. -/
theorem C6_counterexample :
    deserialize_double_option_field
      (fun t => match t with | Toml.str s => Option.some s | _ => Option.none)
      (serialize_double_option_field Toml.str
        (Option.some (ExplicitOption.Some "none"))) =
      Option.some (Option.some ExplicitOption.None) ∧
    (Option.some ExplicitOption.None : DoubleOption String) ≠
      Option.some (ExplicitOption.Some "none") := by
  constructor
  · rfl
  · intro h
    injection h with h2
    exact ExplicitOption.noConfusion h2

/-- Claim C6 as amended: provided the serialised form of a value of `T` is
never the string `"none"` (true of the table-valued encryption configs this
encoding is used with), the three states serialise to an omitted field, the
string `"none"`, and the natural form of `T`, and each state deserialises
back to itself — so the three states stay pairwise distinguishable. -/
theorem C6_double_option_round_trip {T : Type} (enc : T → Toml)
    (dec : Toml → Option T)
    (hdec : ∀ v, dec (enc v) = Option.some v)
    (hnone : ∀ v, enc v ≠ Toml.str "none") :
    serialize_double_option_field enc Option.none = Option.none ∧
    serialize_double_option_field enc (Option.some .None) =
      Option.some (Toml.str "none") ∧
    (∀ v, serialize_double_option_field enc (Option.some (.Some v)) =
      Option.some (enc v)) ∧
    (∀ x : DoubleOption T,
      deserialize_double_option_field dec (serialize_double_option_field enc x) =
        Option.some x) := by
  refine ⟨rfl, rfl, fun v => rfl, ?_⟩
  intro x
  match x with
  | Option.none => rfl
  | Option.some .None => rfl
  | Option.some (.Some v) =>
    show (ExplicitOption.deserialize dec (enc v)).map Option.some =
      Option.some (Option.some (.Some v))
    cases henc : enc v with
    | str s =>
      have hs : ¬ s = "none" := fun h => hnone v (h ▸ henc)
      simp only [ExplicitOption.deserialize]
      rw [if_neg hs, ← henc, hdec]
      rfl
    | int n =>
      simp only [ExplicitOption.deserialize]
      rw [← henc, hdec]
      rfl
    | table kvs =>
      simp only [ExplicitOption.deserialize]
      rw [← henc, hdec]
      rfl

/-- Witness for C6 at `T = Nat` with the integer encoding. -/
theorem C6_double_option_round_trip_witness :
    deserialize_double_option_field
      (fun t => match t with | Toml.int n => Option.some n.toNat | _ => Option.none)
      (serialize_double_option_field (fun v : Nat => Toml.int v)
        (Option.some (ExplicitOption.Some 5))) =
      Option.some (Option.some (ExplicitOption.Some 5)) :=
  (C6_double_option_round_trip (fun v : Nat => Toml.int v)
    (fun t => match t with | Toml.int n => Option.some n.toNat | _ => Option.none)
    (fun v => by simp) (fun v h => Toml.noConfusion h)).2.2.2
    (Option.some (.Some 5))

/-! ## Registry generation precondition (src/owned/registry.rs, `generate`) -/

inductive IoErrorKind where
  | NotFound
  | InvalidInput
  | Other
deriving DecidableEq, Repr

/-- The observable state of the generation target path: the outcome of
`tokio::fs::metadata` and, for a directory, whether `read_dir` yields a
first entry. -/
inductive TargetPathState where
  | dir (nonempty : Bool)
  | file
  | absent
  | ioError (kind : IoErrorKind)
deriving DecidableEq, Repr

inductive GenerateError where
  | RegistryAlreadyExists (path : String)
  | IoError (kind : IoErrorKind)
deriving DecidableEq, Repr

/-- Embedding of the target-directory check at the start of
`OwnedRegistry::generate` (src/owned/registry.rs, lines 197-222): for an
existing directory, when not overwriting, a first directory entry raises
`RegistryAlreadyExists`; an existing non-directory raises an `InvalidInput`
I/O error; a missing path leads to `create_dir_all` (result `true`); any
other metadata error propagates.  The returned `Bool` records whether the
directory had to be created. -/
def generate_target_check (directory_path : String) (state : TargetPathState)
    (overwrite : Bool) : Except GenerateError Bool :=
  match state with
  | .dir nonempty =>
    if !overwrite then
      if nonempty then .error (.RegistryAlreadyExists directory_path)
      else .ok false
    else .ok false
  | .file => .error (.IoError .InvalidInput)
  | .absent => .ok true
  | .ioError kind => .error (.IoError kind)

/-- Claim C7: generation fails with `RegistryAlreadyExists` exactly when the
target exists as a non-empty directory and `overwrite` is false; it fails
with an I/O error when the target exists but is not a directory; otherwise
(directory absent, or empty, or `overwrite` true) it proceeds, creating the
directory exactly when it was absent. -/
theorem C7_generate_target_check (directory_path : String)
    (state : TargetPathState) (overwrite : Bool) :
    ((∃ p, generate_target_check directory_path state overwrite =
        .error (.RegistryAlreadyExists p)) ↔
      (state = .dir true ∧ overwrite = false)) ∧
    (state = .dir true ∧ overwrite = false →
      generate_target_check directory_path state overwrite =
        .error (.RegistryAlreadyExists directory_path)) ∧
    (state = .file →
      generate_target_check directory_path state overwrite =
        .error (.IoError .InvalidInput)) ∧
    ((state = .dir false ∨ ∃ b, state = .dir b ∧ overwrite = true) →
      generate_target_check directory_path state overwrite = .ok false) ∧
    (state = .absent →
      generate_target_check directory_path state overwrite = .ok true) := by
  refine ⟨⟨?_, ?_⟩, ?_, ?_, ?_, ?_⟩
  · rintro ⟨p, hp⟩
    cases state with
    | dir nonempty =>
      cases overwrite <;> cases nonempty <;> simp_all [generate_target_check]
    | file => simp [generate_target_check] at hp
    | absent => simp [generate_target_check] at hp
    | ioError kind => simp [generate_target_check] at hp
  · rintro ⟨rfl, rfl⟩
    exact ⟨directory_path, rfl⟩
  · rintro ⟨rfl, rfl⟩
    rfl
  · rintro rfl
    rfl
  · rintro (rfl | ⟨b, rfl, rfl⟩)
    · cases overwrite <;> rfl
    · cases b <;> rfl
  · rintro rfl
    rfl

/-- Witness for C7 at a concrete input: a non-empty directory without
overwrite fails with `RegistryAlreadyExists`, an empty one proceeds. -/
theorem C7_generate_target_check_witness :
    generate_target_check "registry" (.dir true) false =
      .error (.RegistryAlreadyExists "registry") ∧
    generate_target_check "registry" (.dir false) false = .ok false :=
  ⟨(C7_generate_target_check "registry" (.dir true) false).2.1 ⟨rfl, rfl⟩,
   (C7_generate_target_check "registry" (.dir false) false).2.2.2.1 (Or.inl rfl)⟩

/-! ## Source-record configuration types (src/owned/record.rs)

`EncryptionAlgorithm` is an external enum; the core only names its
`Aes256Gcm` variant, other variants are represented opaquely. -/

inductive EncryptionAlgorithm where
  | Aes256Gcm
  | otherAlgorithm (code : Nat)
deriving DecidableEq, Repr

structure OwnedRecordConfigEncryptionUnresolved where
  algorithm : Option EncryptionAlgorithm
  segment_padding_to_bytes : Option Nat
deriving DecidableEq, Repr

structure OwnedRecordConfigEncryption where
  algorithm : EncryptionAlgorithm
  segment_padding_to_bytes : Nat
deriving DecidableEq, Repr

/-- The `or` merge of the `Unresolved` trait: per field, this side's value
if present, otherwise the fallback. -/
def OwnedRecordConfigEncryptionUnresolved.or
    (self fallback : OwnedRecordConfigEncryptionUnresolved) :
    OwnedRecordConfigEncryptionUnresolved :=
  { algorithm := self.algorithm.or fallback.algorithm,
    segment_padding_to_bytes :=
      self.segment_padding_to_bytes.or fallback.segment_padding_to_bytes }

/-- `resolve` succeeds when every field is set. -/
def OwnedRecordConfigEncryptionUnresolved.resolve
    (self : OwnedRecordConfigEncryptionUnresolved) :
    Except OwnedRecordConfigEncryptionUnresolved OwnedRecordConfigEncryption :=
  match self with
  | ⟨some algorithm, some segment_padding_to_bytes⟩ =>
    .ok ⟨algorithm, segment_padding_to_bytes⟩
  | s => .error s

/-- `From<OwnedRecordConfigEncryption>` for the unresolved form. -/
def OwnedRecordConfigEncryption.toUnresolved
    (value : OwnedRecordConfigEncryption) : OwnedRecordConfigEncryptionUnresolved :=
  ⟨some value.algorithm, some value.segment_padding_to_bytes⟩

structure OwnedRecordConfigParametersUnresolved where
  splitting_strategy : Option SplittingStrategy
  encryption : DoubleOption OwnedRecordConfigEncryptionUnresolved
deriving DecidableEq, Repr

structure OwnedRecordConfigParameters where
  splitting_strategy : SplittingStrategy
  encryption : Option OwnedRecordConfigEncryption
deriving DecidableEq, Repr

def OwnedRecordConfigParametersUnresolved.or
    (self fallback : OwnedRecordConfigParametersUnresolved) :
    OwnedRecordConfigParametersUnresolved :=
  { splitting_strategy := self.splitting_strategy.or fallback.splitting_strategy,
    encryption := self.encryption.or fallback.encryption }

/-- `resolve` for the record parameters: both fields must be present; the
three-valued encryption resolves `explicit-none` to `None` and `some` to a
resolved encryption (`Option::from(..).map(resolve).transpose()`). -/
def OwnedRecordConfigParametersUnresolved.resolve
    (self : OwnedRecordConfigParametersUnresolved) :
    Except OwnedRecordConfigParametersUnresolved OwnedRecordConfigParameters :=
  match self with
  | ⟨some splitting_strategy, some encryption⟩ =>
    match encryption.toOption with
    | Option.none => .ok ⟨splitting_strategy, Option.none⟩
    | Option.some enc =>
      match enc.resolve with
      | .ok resolved => .ok ⟨splitting_strategy, Option.some resolved⟩
      | .error unresolved =>
        .error ⟨some splitting_strategy, Option.some (.Some unresolved)⟩
  | s => .error s

/-- `From<OwnedRecordConfigParameters>` for the unresolved form. -/
def OwnedRecordConfigParameters.toUnresolved
    (value : OwnedRecordConfigParameters) : OwnedRecordConfigParametersUnresolved :=
  ⟨some value.splitting_strategy,
   some (ExplicitOption.ofOption
     (value.encryption.map OwnedRecordConfigEncryption.toUnresolved))⟩

/-- `toml::value::Datetime`, modelled as the datetime text it parses from
and prints to. -/
structure Datetime where
  text : String
deriving DecidableEq, Repr

structure OwnedRecordMetadata where
  created_at : Option Datetime
deriving DecidableEq, Repr

structure OwnedRecordConfigUnresolved where
  name : List Nat
  metadata : OwnedRecordMetadata
  parameters : OwnedRecordConfigParametersUnresolved
deriving DecidableEq, Repr

structure OwnedRecordConfig where
  name : List Nat
  metadata : OwnedRecordMetadata
  parameters : OwnedRecordConfigParameters
deriving DecidableEq, Repr

/-- `OwnedRecordConfigUnresolved::try_resolve_with`: merge this config's
parameters over the given fallback parameters, then resolve. -/
def OwnedRecordConfigUnresolved.try_resolve_with
    (self : OwnedRecordConfigUnresolved)
    (parameters : OwnedRecordConfigParametersUnresolved) :
    Except OwnedRecordConfigUnresolved OwnedRecordConfig :=
  match (self.parameters.or parameters).resolve with
  | .ok resolved => .ok ⟨self.name, self.metadata, resolved⟩
  | .error unresolved => .error ⟨self.name, self.metadata, unresolved⟩

/-! ## UTF-8 validity (the `OsStr::to_str` check of `load_config`)

The standard UTF-8 well-formedness conditions: no overlong encodings, no
surrogate code points, nothing above `U+10FFFF`. -/

def utf8Cont (b : Nat) : Bool := 128 ≤ b && b < 192

def isValidUtf8 : List Nat → Bool
  | [] => true
  | b :: rest =>
    if b < 128 then isValidUtf8 rest
    else if b < 194 then false
    else if b < 224 then
      match rest with
      | b1 :: rest1 => utf8Cont b1 && isValidUtf8 rest1
      | _ => false
    else if b = 224 then
      match rest with
      | b1 :: b2 :: rest2 =>
        (160 ≤ b1 && b1 < 192) && utf8Cont b2 && isValidUtf8 rest2
      | _ => false
    else if b = 237 then
      match rest with
      | b1 :: b2 :: rest2 =>
        (128 ≤ b1 && b1 < 160) && utf8Cont b2 && isValidUtf8 rest2
      | _ => false
    else if b < 240 then
      match rest with
      | b1 :: b2 :: rest2 => utf8Cont b1 && utf8Cont b2 && isValidUtf8 rest2
      | _ => false
    else if b = 240 then
      match rest with
      | b1 :: b2 :: b3 :: rest3 =>
        (144 ≤ b1 && b1 < 192) && utf8Cont b2 && utf8Cont b3 && isValidUtf8 rest3
      | _ => false
    else if b < 244 then
      match rest with
      | b1 :: b2 :: b3 :: rest3 =>
        utf8Cont b1 && utf8Cont b2 && utf8Cont b3 && isValidUtf8 rest3
      | _ => false
    else if b = 244 then
      match rest with
      | b1 :: b2 :: b3 :: rest3 =>
        (128 ≤ b1 && b1 < 144) && utf8Cont b2 && utf8Cont b3 && isValidUtf8 rest3
      | _ => false
    else false

/-! ## Source-record loading (src/owned/record.rs, lines 226-328)

The file system seen by the loader is a tree: each record directory holds
an optional `record.toml` (present and parsing to a config, present but
failing to parse, or absent), creation-time metadata, and its
subdirectories with their names.  Paths are lists of byte-string
components; the external `chrono`/RFC-3339 formatting of the creation time
is the parameter `format_rfc3339`. -/

structure DirMeta where
  created : Except IoErrorKind Nat
deriving Repr

inductive SourceDir where
  | mk (record_toml : Option (Option OwnedRecordConfigUnresolved))
      (meta : DirMeta)
      (subdirs : List (List Nat × SourceDir))

def SourceDir.record_toml : SourceDir → Option (Option OwnedRecordConfigUnresolved)
  | .mk t _ _ => t

def SourceDir.meta : SourceDir → DirMeta
  | .mk _ m _ => m

def SourceDir.subdirs : SourceDir → List (List Nat × SourceDir)
  | .mk _ _ s => s

inductive LoadError where
  | DuplicateSuccessiveRecord (parent : List (List Nat)) (name : List Nat)
  | IncompleteRecordParameters
  | TomlParseError
  | IoError (kind : IoErrorKind)
deriving DecidableEq, Repr

/-- Embedding of `OwnedRecord::load_config` (src/owned/record.rs,
lines 287-328): a present `record.toml` is parsed; when it is absent, a
config is synthesised from the final path component (which must exist and
be valid UTF-8, otherwise an `InvalidInput` I/O error) and the directory's
creation time formatted as RFC 3339, all parameters left unset. -/
def OwnedRecord.load_config (format_rfc3339 : Nat → String)
    (directory_path : List (List Nat)) (d : SourceDir) :
    Except LoadError OwnedRecordConfigUnresolved :=
  match d.record_toml with
  | some (some config) => .ok config
  | some none => .error .TomlParseError
  | none =>
    match directory_path.getLast? with
    | none => .error (.IoError .InvalidInput)
    | some file_name =>
      if isValidUtf8 file_name then
        match d.meta.created with
        | .error kind => .error (.IoError kind)
        | .ok created_at_system =>
          .ok { name := file_name,
                metadata := { created_at := some ⟨format_rfc3339 created_at_system⟩ },
                parameters := ⟨none, none⟩ }
      else .error (.IoError .InvalidInput)

inductive OwnedRecord where
  | mk (directory_path : List (List Nat)) (config : OwnedRecordConfig)
      (successive_records : List OwnedRecord)

def OwnedRecord.directory_path : OwnedRecord → List (List Nat)
  | .mk p _ _ => p

def OwnedRecord.config : OwnedRecord → OwnedRecordConfig
  | .mk _ c _ => c

def OwnedRecord.successive_records : OwnedRecord → List OwnedRecord
  | .mk _ _ s => s

mutual

/-- Embedding of `OwnedRecord::load_from_directory` (src/owned/record.rs,
lines 226-269): load or synthesise the config, resolve it against the
registry's default record parameters, then recurse into every subdirectory,
tracking seen successive-record names and failing with
`DuplicateSuccessiveRecord` on a collision. -/
def OwnedRecord.load_from_directory (format_rfc3339 : Nat → String)
    (default_record_parameters : OwnedRecordConfigParametersUnresolved)
    (directory_path : List (List Nat)) (d : SourceDir) :
    Except LoadError OwnedRecord :=
  match d with
  | .mk record_toml meta subdirs =>
    match OwnedRecord.load_config format_rfc3339 directory_path
        (.mk record_toml meta subdirs) with
    | .error e => .error e
    | .ok config_unresolved =>
      match config_unresolved.try_resolve_with default_record_parameters with
      | .error _ => .error .IncompleteRecordParameters
      | .ok config =>
        match load_successive_records format_rfc3339 default_record_parameters
            directory_path subdirs [] [] with
        | .error e => .error e
        | .ok successive_records =>
          .ok (.mk directory_path config successive_records)

/-- The subdirectory loop of `load_from_directory`: load each child under
`parent_path`, keep the set of names seen so far, and fail with
`DuplicateSuccessiveRecord{parent, name}` when an insertion is not new. -/
def load_successive_records (format_rfc3339 : Nat → String)
    (default_record_parameters : OwnedRecordConfigParametersUnresolved)
    (parent_path : List (List Nat))
    (entries : List (List Nat × SourceDir))
    (successive_record_names : List (List Nat))
    (acc : List OwnedRecord) :
    Except LoadError (List OwnedRecord) :=
  match entries with
  | [] => .ok acc.reverse
  | (entry_name, sub) :: rest =>
    match OwnedRecord.load_from_directory format_rfc3339 default_record_parameters
        (parent_path ++ [entry_name]) sub with
    | .error e => .error e
    | .ok successive_record =>
      if successive_record.config.name ∈ successive_record_names then
        .error (.DuplicateSuccessiveRecord parent_path successive_record.config.name)
      else
        load_successive_records format_rfc3339 default_record_parameters parent_path
          rest (successive_record.config.name :: successive_record_names)
          (successive_record :: acc)

end

/-- Claim C8: when a record directory has no `record.toml`, the loader
synthesises an unresolved config whose name is the UTF-8 bytes of the
directory's final path component, whose `created_at` is the directory's
file-system creation time formatted as an RFC-3339 timestamp, and whose
parameters are all unset; it fails with an I/O-kind error when the final
component is missing or is not valid UTF-8. -/
theorem C8_load_config_synthesis (format_rfc3339 : Nat → String)
    (directory_path : List (List Nat)) (meta : DirMeta)
    (subdirs : List (List Nat × SourceDir)) :
    (∀ file_name t, directory_path.getLast? = some file_name →
      isValidUtf8 file_name = true →
      meta.created = .ok t →
      OwnedRecord.load_config format_rfc3339 directory_path (.mk none meta subdirs) =
        .ok { name := file_name,
              metadata := { created_at := some ⟨format_rfc3339 t⟩ },
              parameters := ⟨none, none⟩ }) ∧
    (directory_path.getLast? = none →
      OwnedRecord.load_config format_rfc3339 directory_path (.mk none meta subdirs) =
        .error (.IoError .InvalidInput)) ∧
    (∀ file_name, directory_path.getLast? = some file_name →
      isValidUtf8 file_name = false →
      OwnedRecord.load_config format_rfc3339 directory_path (.mk none meta subdirs) =
        .error (.IoError .InvalidInput)) := by
  refine ⟨?_, ?_, ?_⟩
  · intro file_name t hlast hutf hcreated
    simp only [OwnedRecord.load_config, SourceDir.record_toml, SourceDir.meta,
      hlast, hutf, hcreated]
    rfl
  · intro hlast
    simp only [OwnedRecord.load_config, SourceDir.record_toml, hlast]
  · intro file_name hlast hutf
    simp only [OwnedRecord.load_config, SourceDir.record_toml, SourceDir.meta,
      hlast, hutf]
    rfl

/-- Witness for C8: the directory `root` (bytes `114 111 111 116`, valid
UTF-8) without a `record.toml`, with creation time formatted by a constant
formatter. -/
theorem C8_load_config_synthesis_witness :
    OwnedRecord.load_config (fun _ => "1970-01-01T00:00:00+00:00")
      [[114, 111, 111, 116]] (.mk none ⟨.ok 0⟩ []) =
      .ok { name := [114, 111, 111, 116],
            metadata := { created_at := some ⟨"1970-01-01T00:00:00+00:00"⟩ },
            parameters := ⟨none, none⟩ } :=
  (C8_load_config_synthesis (fun _ => "1970-01-01T00:00:00+00:00")
    [[114, 111, 111, 116]] ⟨.ok 0⟩ []).1 [114, 111, 111, 116] 0 rfl (by decide) rfl

/-! ## Step equations for the loader, used by the C4 proofs. -/

theorem lsr_nil (fmt : Nat → String) (dp : OwnedRecordConfigParametersUnresolved)
    (parent : List (List Nat)) (names : List (List Nat)) (acc : List OwnedRecord) :
    load_successive_records fmt dp parent [] names acc = .ok acc.reverse := by
  unfold load_successive_records
  rfl

theorem lsr_cons_err (fmt : Nat → String) (dp : OwnedRecordConfigParametersUnresolved)
    (parent : List (List Nat)) (entry_name : List Nat) (sub : SourceDir)
    (rest : List (List Nat × SourceDir)) (names : List (List Nat))
    (acc : List OwnedRecord) (e : LoadError)
    (hload : OwnedRecord.load_from_directory fmt dp (parent ++ [entry_name]) sub =
      .error e) :
    load_successive_records fmt dp parent ((entry_name, sub) :: rest) names acc =
      .error e := by
  unfold load_successive_records
  simp only [hload]

theorem lsr_cons_mem (fmt : Nat → String) (dp : OwnedRecordConfigParametersUnresolved)
    (parent : List (List Nat)) (entry_name : List Nat) (sub : SourceDir)
    (rest : List (List Nat × SourceDir)) (names : List (List Nat))
    (acc : List OwnedRecord) (r0 : OwnedRecord)
    (hload : OwnedRecord.load_from_directory fmt dp (parent ++ [entry_name]) sub =
      .ok r0)
    (hm : r0.config.name ∈ names) :
    load_successive_records fmt dp parent ((entry_name, sub) :: rest) names acc =
      .error (.DuplicateSuccessiveRecord parent r0.config.name) := by
  unfold load_successive_records
  simp only [hload]
  rw [if_pos hm]

theorem lsr_cons_new (fmt : Nat → String) (dp : OwnedRecordConfigParametersUnresolved)
    (parent : List (List Nat)) (entry_name : List Nat) (sub : SourceDir)
    (rest : List (List Nat × SourceDir)) (names : List (List Nat))
    (acc : List OwnedRecord) (r0 : OwnedRecord)
    (hload : OwnedRecord.load_from_directory fmt dp (parent ++ [entry_name]) sub =
      .ok r0)
    (hm : r0.config.name ∉ names) :
    load_successive_records fmt dp parent ((entry_name, sub) :: rest) names acc =
      load_successive_records fmt dp parent rest
        (r0.config.name :: names) (r0 :: acc) := by
  conv_lhs => unfold load_successive_records
  simp only [hload]
  rw [if_neg hm]

theorem lfd_unfold (fmt : Nat → String) (dp : OwnedRecordConfigParametersUnresolved)
    (path : List (List Nat)) (record_toml : Option (Option OwnedRecordConfigUnresolved))
    (meta : DirMeta) (subdirs : List (List Nat × SourceDir)) :
    OwnedRecord.load_from_directory fmt dp path (.mk record_toml meta subdirs) =
      match OwnedRecord.load_config fmt path (.mk record_toml meta subdirs) with
      | .error e => .error e
      | .ok config_unresolved =>
        match config_unresolved.try_resolve_with dp with
        | .error _ => .error .IncompleteRecordParameters
        | .ok config =>
          match load_successive_records fmt dp path subdirs [] [] with
          | .error e => .error e
          | .ok successive_records => .ok (.mk path config successive_records) := by
  unfold OwnedRecord.load_from_directory
  rfl

mutual

/-- The claim's invariant on a loaded record: the names of its direct
successive records are pairwise distinct, recursively at every level. -/
def OwnedRecord.successorNamesDistinct : OwnedRecord → Prop
  | .mk _ _ successive_records =>
    (successive_records.map (fun r => r.config.name)).Nodup ∧
    allSuccessorNamesDistinct successive_records

def allSuccessorNamesDistinct : List OwnedRecord → Prop
  | [] => True
  | r :: rs => r.successorNamesDistinct ∧ allSuccessorNamesDistinct rs

end

theorem allSuccessorNamesDistinct_iff (l : List OwnedRecord) :
    allSuccessorNamesDistinct l ↔ ∀ r ∈ l, r.successorNamesDistinct := by
  induction l with
  | nil => simp [allSuccessorNamesDistinct]
  | cons r rs ih =>
    unfold allSuccessorNamesDistinct
    rw [ih]
    constructor
    · rintro ⟨h1, h2⟩ q hq
      rcases List.mem_cons.mp hq with rfl | hq
      · exact h1
      · exact h2 q hq
    · intro h
      exact ⟨h r (List.mem_cons_self _ _), fun q hq => h q (List.mem_cons_of_mem _ hq)⟩

mutual

theorem load_from_directory_names_distinct (fmt : Nat → String)
    (dp : OwnedRecordConfigParametersUnresolved) (path : List (List Nat))
    (d : SourceDir) (r : OwnedRecord)
    (h : OwnedRecord.load_from_directory fmt dp path d = .ok r) :
    r.successorNamesDistinct := by
  match d with
  | .mk record_toml meta subdirs =>
    rw [lfd_unfold] at h
    cases hcfg : OwnedRecord.load_config fmt path (.mk record_toml meta subdirs) with
    | error e => rw [hcfg] at h; cases h
    | ok config_unresolved =>
      rw [hcfg] at h
      simp only at h
      cases hres : config_unresolved.try_resolve_with dp with
      | error u => rw [hres] at h; cases h
      | ok config =>
        rw [hres] at h
        simp only at h
        cases hsucc : load_successive_records fmt dp path subdirs [] [] with
        | error e => rw [hsucc] at h; cases h
        | ok successive_records =>
          rw [hsucc] at h
          simp only at h
          cases h
          have hmain := load_successive_records_names_distinct fmt dp path subdirs
            [] [] successive_records hsucc trivial List.nodup_nil (by simp)
          exact ⟨hmain.1, hmain.2⟩

theorem load_successive_records_names_distinct (fmt : Nat → String)
    (dp : OwnedRecordConfigParametersUnresolved) (parent : List (List Nat))
    (entries : List (List Nat × SourceDir)) (names : List (List Nat))
    (acc : List OwnedRecord) (l : List OwnedRecord)
    (h : load_successive_records fmt dp parent entries names acc = .ok l)
    (hacc_distinct : allSuccessorNamesDistinct acc)
    (hacc_nodup : (acc.map (fun r => r.config.name)).Nodup)
    (hacc_names : ∀ r ∈ acc, r.config.name ∈ names) :
    (l.map (fun r => r.config.name)).Nodup ∧ allSuccessorNamesDistinct l := by
  match entries with
  | [] =>
    rw [lsr_nil] at h
    cases h
    constructor
    · rw [List.map_reverse]
      exact List.nodup_reverse.mpr hacc_nodup
    · rw [allSuccessorNamesDistinct_iff]
      intro q hq
      exact (allSuccessorNamesDistinct_iff acc).mp hacc_distinct q
        (List.mem_reverse.mp hq)
  | (entry_name, sub) :: rest =>
    cases hload : OwnedRecord.load_from_directory fmt dp (parent ++ [entry_name]) sub with
    | error e =>
      rw [lsr_cons_err fmt dp parent entry_name sub rest names acc e hload] at h
      cases h
    | ok r0 =>
      by_cases hm : r0.config.name ∈ names
      · rw [lsr_cons_mem fmt dp parent entry_name sub rest names acc r0 hload hm] at h
        cases h
      · rw [lsr_cons_new fmt dp parent entry_name sub rest names acc r0 hload hm] at h
        have hr0 := load_from_directory_names_distinct fmt dp
          (parent ++ [entry_name]) sub r0 hload
        refine load_successive_records_names_distinct fmt dp parent rest
          (r0.config.name :: names) (r0 :: acc) l h ⟨hr0, hacc_distinct⟩ ?_ ?_
        · rw [List.map_cons, List.nodup_cons]
          refine ⟨?_, hacc_nodup⟩
          intro hmem
          obtain ⟨q, hq, hqe⟩ := List.mem_map.mp hmem
          exact hm (hqe ▸ hacc_names q hq)
        · intro q hq
          rcases List.mem_cons.mp hq with rfl | hq
          · exact List.mem_cons_self _ _
          · exact List.mem_cons_of_mem _ (hacc_names q hq)

end

theorem load_successive_records_duplicate_fails (fmt : Nat → String)
    (dp : OwnedRecordConfigParametersUnresolved) (parent : List (List Nat)) :
    ∀ (entries : List (List Nat × SourceDir)) (rs : List OwnedRecord)
      (names : List (List Nat)) (acc : List OwnedRecord),
      List.Forall₂ (fun (e : List Nat × SourceDir) (r : OwnedRecord) =>
        OwnedRecord.load_from_directory fmt dp (parent ++ [e.1]) e.2 = .ok r)
        entries rs →
      ¬ ((rs.map (fun r => r.config.name)).Nodup ∧
         ∀ x ∈ rs.map (fun r => r.config.name), x ∉ names) →
      ∃ n, load_successive_records fmt dp parent entries names acc =
          .error (.DuplicateSuccessiveRecord parent n) ∧
        (2 ≤ (rs.map (fun r => r.config.name)).count n ∨
         (n ∈ names ∧ n ∈ rs.map (fun r => r.config.name))) := by
  intro entries rs names acc hf
  induction hf generalizing names acc with
  | nil =>
    intro hcond
    exact absurd ⟨List.nodup_nil, by simp⟩ hcond
  | @cons e r0 entries1 rs1 hload htail ih =>
    intro hcond
    obtain ⟨entry_name, sub⟩ := e
    by_cases hm : r0.config.name ∈ names
    · refine ⟨r0.config.name,
        lsr_cons_mem fmt dp parent entry_name sub entries1 names acc r0 hload hm,
        Or.inr ⟨hm, ?_⟩⟩
      simp
    · have hcond1 : ¬ ((rs1.map (fun r => r.config.name)).Nodup ∧
          ∀ x ∈ rs1.map (fun r => r.config.name),
            x ∉ r0.config.name :: names) := by
        rintro ⟨hnd, hdisj⟩
        apply hcond
        constructor
        · rw [List.map_cons, List.nodup_cons]
          refine ⟨?_, hnd⟩
          intro hmem
          exact (hdisj _ hmem) (List.mem_cons_self _ _)
        · intro x hx
          rw [List.map_cons] at hx
          rcases List.mem_cons.mp hx with rfl | hx1
          · exact hm
          · exact fun hxn => (hdisj x hx1) (List.mem_cons_of_mem _ hxn)
      obtain ⟨n, herr, hcase⟩ := ih (r0.config.name :: names) (r0 :: acc) hcond1
      refine ⟨n,
        (lsr_cons_new fmt dp parent entry_name sub entries1 names acc r0 hload hm).trans
          herr, ?_⟩
      rcases hcase with h2 | ⟨hn1, hn2⟩
      · left
        rw [List.map_cons, List.count_cons]
        omega
      · rcases List.mem_cons.mp hn1 with rfl | hn3
        · left
          rw [List.map_cons, List.count_cons]
          have hpos := List.count_pos_iff.mpr hn2
          rw [if_pos (by simp)]
          omega
        · right
          exact ⟨hn3, by rw [List.map_cons]; exact List.mem_cons_of_mem _ hn2⟩

/-- Claim C4: for every loaded Source Record the names of its direct
successive records are pairwise distinct (recursively at every level); and
when the children of a directory all load but two of them resolve to the
same record name, `load_from_directory` fails with
`DuplicateSuccessiveRecord` carrying that parent's path and a name that
occurs at least twice among the children, returning no Source Record. -/
theorem C4_duplicate_successive_record_names (fmt : Nat → String)
    (dp : OwnedRecordConfigParametersUnresolved) (path : List (List Nat))
    (record_toml : Option (Option OwnedRecordConfigUnresolved)) (meta : DirMeta)
    (subdirs : List (List Nat × SourceDir)) :
    (∀ r, OwnedRecord.load_from_directory fmt dp path (.mk record_toml meta subdirs) =
        .ok r → r.successorNamesDistinct) ∧
    (∀ (config_unresolved : OwnedRecordConfigUnresolved)
       (config : OwnedRecordConfig) (rs : List OwnedRecord),
      OwnedRecord.load_config fmt path (.mk record_toml meta subdirs) =
        .ok config_unresolved →
      config_unresolved.try_resolve_with dp = .ok config →
      List.Forall₂ (fun (e : List Nat × SourceDir) (r : OwnedRecord) =>
        OwnedRecord.load_from_directory fmt dp (path ++ [e.1]) e.2 = .ok r)
        subdirs rs →
      ¬ (rs.map (fun r => r.config.name)).Nodup →
      ∃ n, OwnedRecord.load_from_directory fmt dp path (.mk record_toml meta subdirs) =
          .error (.DuplicateSuccessiveRecord path n) ∧
        2 ≤ (rs.map (fun r => r.config.name)).count n) := by
  constructor
  · intro r h
    exact load_from_directory_names_distinct fmt dp path (.mk record_toml meta subdirs) r h
  · intro config_unresolved config rs hcfg hres hf hnodup
    obtain ⟨n, herr, hcase⟩ := load_successive_records_duplicate_fails fmt dp path
      subdirs rs [] [] hf (fun hc => hnodup hc.1)
    refine ⟨n, ?_, ?_⟩
    · rw [lfd_unfold, hcfg]
      simp only
      rw [hres]
      simp only
      rw [herr]
    · rcases hcase with h2 | ⟨hn1, _⟩
      · exact h2
      · cases hn1

/-- Witness for C4 at a concrete source tree: a parent `r` with two child
directories `a` and `b` whose `record.toml` configs carry the same name `c`
makes loading fail with `DuplicateSuccessiveRecord` naming the parent path
and the colliding name. -/
theorem C4_duplicate_successive_record_names_witness :
    ∃ n, OwnedRecord.load_from_directory (fun _ => "t") ⟨some .Fill, some .None⟩ [[114]]
        (.mk (some (some ⟨[114], ⟨none⟩, ⟨none, none⟩⟩)) ⟨.ok 0⟩
          [([97], .mk (some (some ⟨[99], ⟨none⟩, ⟨none, none⟩⟩)) ⟨.ok 0⟩ []),
           ([98], .mk (some (some ⟨[99], ⟨none⟩, ⟨none, none⟩⟩)) ⟨.ok 0⟩ [])]) =
        .error (.DuplicateSuccessiveRecord [[114]] n) := by
  have hchildA : OwnedRecord.load_from_directory (fun _ => "t")
      ⟨some .Fill, some .None⟩ [[114], [97]]
      (.mk (some (some ⟨[99], ⟨none⟩, ⟨none, none⟩⟩)) ⟨.ok 0⟩ []) =
      .ok (.mk [[114], [97]] ⟨[99], ⟨none⟩, .Fill, none⟩ []) := by
    rw [lfd_unfold, lsr_nil]
    rfl
  have hchildB : OwnedRecord.load_from_directory (fun _ => "t")
      ⟨some .Fill, some .None⟩ [[114], [98]]
      (.mk (some (some ⟨[99], ⟨none⟩, ⟨none, none⟩⟩)) ⟨.ok 0⟩ []) =
      .ok (.mk [[114], [98]] ⟨[99], ⟨none⟩, .Fill, none⟩ []) := by
    rw [lfd_unfold, lsr_nil]
    rfl
  obtain ⟨n, herr, _⟩ := (C4_duplicate_successive_record_names (fun _ => "t")
      ⟨some .Fill, some .None⟩ [[114]]
      (some (some ⟨[114], ⟨none⟩, ⟨none, none⟩⟩)) ⟨.ok 0⟩
      [([97], .mk (some (some ⟨[99], ⟨none⟩, ⟨none, none⟩⟩)) ⟨.ok 0⟩ []),
       ([98], .mk (some (some ⟨[99], ⟨none⟩, ⟨none, none⟩⟩)) ⟨.ok 0⟩ [])]).2
      ⟨[114], ⟨none⟩, ⟨none, none⟩⟩ ⟨[114], ⟨none⟩, ⟨.Fill, none⟩⟩
      [.mk [[114], [97]] ⟨[99], ⟨none⟩, ⟨.Fill, none⟩⟩ [],
       .mk [[114], [98]] ⟨[99], ⟨none⟩, ⟨.Fill, none⟩⟩ []]
      rfl rfl
      (List.Forall₂.cons hchildA (List.Forall₂.cons hchildB List.Forall₂.nil))
      (by decide)
  exact ⟨n, herr⟩

/-! ## Owned Registry generation and load (src/owned/registry.rs)

External library types (`RegistryConfigHash`, `RegistryConfigKdf`,
`SigningKey`) are opaque wrappers; the TOML and PKCS#8-PEM codecs are
parameters.  The on-disk state relevant to `load` is a map from
registry-relative paths to file contents, later writes shadowing earlier
ones. -/

structure RegistryConfigHash where
  val : Nat
deriving DecidableEq, Repr

structure RegistryConfigKdf where
  val : Nat
deriving DecidableEq, Repr

structure SigningKey where
  val : Nat
deriving DecidableEq, Repr

structure OwnedRegistryConfig where
  hash : RegistryConfigHash
  kdf : RegistryConfigKdf
  default_record_parameters : OwnedRecordConfigParametersUnresolved
  root_record_path : String
  staging_directory_path : String
  revisions_directory_path : String
  published_directory_path : String
  signing_key_paths : List String
deriving DecidableEq, Repr

inductive FileLockType where
  | Read
  | Write
deriving DecidableEq, Repr

structure OwnedRegistry where
  directory_path : String
  config : OwnedRegistryConfig
  signing_keys : List SigningKey
  file_lock : FileLockType
deriving Repr

/-- The `PartialEq` impl of `OwnedRegistry` (src/owned/registry.rs,
lines 338-356): it destructures both sides, compares `directory_path`,
`config` and `signing_keys`, and discards the lock field. -/
def OwnedRegistry.eq (a b : OwnedRegistry) : Prop :=
  a.directory_path = b.directory_path ∧ a.config = b.config ∧
    a.signing_keys = b.signing_keys

abbrev Fs := List (String × String)

def fsWrite (fs : Fs) (path content : String) : Fs := (path, content) :: fs

def fsRead (fs : Fs) (path : String) : Option String :=
  (fs.find? (fun e => e.1 == path)).map Prod.snd

theorem fsRead_write_hit (fs : Fs) (path content : String) :
    fsRead (fsWrite fs path content) path = some content := by
  unfold fsRead fsWrite
  rw [List.find?_cons_of_pos _ (by simp)]
  rfl

theorem fsRead_write_miss (fs : Fs) (path path2 content : String)
    (h : path2 ≠ path) :
    fsRead (fsWrite fs path2 content) path = fsRead fs path := by
  unfold fsRead fsWrite
  rw [List.find?_cons_of_neg _ (by simp [h])]

theorem fsRead_template (template : List (String × String)) (path : String) :
    ∀ fs0 : Fs, (∀ e ∈ template, e.1 ≠ path) →
      fsRead (template.foldl (fun fs e => fsWrite fs e.1 e.2) fs0) path =
        fsRead fs0 path := by
  induction template with
  | nil => intro fs0 _; rfl
  | cons e tpl ih =>
    intro fs0 h
    rw [List.foldl_cons,
      ih (fsWrite fs0 e.1 e.2) (fun q hq => h q (List.mem_cons_of_mem _ hq)),
      fsRead_write_miss fs0 path e.1 e.2 (h e (List.mem_cons_self _ _))]

/-- The relative path of the one generated signing key,
`keys/key_<type>.pem` for Ed25519. -/
def keys_key_path : String := "keys/key_ed25519.pem"

/-- The default registry config built by `generate`
(src/owned/registry.rs, lines 270-291): opaque Argon2 hash parameters and
HKDF parameters with a random root predecessor nonce (both passed in as
the opaque inputs `hash` and `kdf`), `Fill` splitting with AES-256-GCM
encryption padded to 1024 bytes as unresolved defaults, the `target/`
output paths, root record path `root`, and the generated key path. -/
def generated_registry_config (hash : RegistryConfigHash)
    (kdf : RegistryConfigKdf) : OwnedRegistryConfig :=
  { hash := hash
    kdf := kdf
    default_record_parameters :=
      OwnedRecordConfigParameters.toUnresolved
        ⟨SplittingStrategy.Fill, some ⟨EncryptionAlgorithm.Aes256Gcm, 1024⟩⟩
    staging_directory_path := "target/staging"
    revisions_directory_path := "target/revisions"
    published_directory_path := "target/published"
    root_record_path := "root"
    signing_key_paths := [keys_key_path] }

/-- Embedding of the success path of `OwnedRegistry::generate`
(src/owned/registry.rs, lines 224-302) on an empty target: open and
truncate `registry.toml` under the write lock, extract the embedded
template, write the generated Ed25519 key as PKCS#8 PEM under `keys/`,
build the default config recording that key path, and save the serialised
config through the held lock.  Returns the in-memory registry and the
resulting on-disk state. -/
def OwnedRegistry.generate (directory_path : String)
    (template : List (String × String)) (hash : RegistryConfigHash)
    (kdf : RegistryConfigKdf) (signing_key : SigningKey)
    (toml_encode : OwnedRegistryConfig → String)
    (pem_encode : SigningKey → String) :
    OwnedRegistry × Fs :=
  let fs0 : Fs := fsWrite [] "registry.toml" ""
  let fs1 := template.foldl (fun fs e => fsWrite fs e.1 e.2) fs0
  let fs2 := fsWrite fs1 keys_key_path (pem_encode signing_key)
  let config := generated_registry_config hash kdf
  let fs3 := fsWrite fs2 "registry.toml" (toml_encode config)
  ({ directory_path := directory_path, config := config,
     signing_keys := [signing_key], file_lock := .Write }, fs3)

inductive LoadRegistryError where
  | IoError (kind : IoErrorKind)
  | TomlParseError
  | KeyPanic
deriving DecidableEq, Repr

/-- The signing-key loop of `OwnedRegistry::load` (src/owned/registry.rs,
lines 90-107): read each path of `signing_key_paths` relative to the
registry directory, in stored order, and reconstruct the key from PKCS#8
PEM (the `.unwrap()` on a malformed key aborts, `KeyPanic`). -/
def load_signing_keys (fs : Fs) (pem_decode : String → Option SigningKey) :
    List String → Except LoadRegistryError (List SigningKey)
  | [] => .ok []
  | key_path :: rest =>
    match fsRead fs key_path with
    | none => .error (.IoError .NotFound)
    | some key_bytes =>
      match pem_decode key_bytes with
      | none => .error .KeyPanic
      | some key =>
        match load_signing_keys fs pem_decode rest with
        | .error e => .error e
        | .ok keys => .ok (key :: keys)

/-- Embedding of `OwnedRegistry::load` (src/owned/registry.rs,
lines 71-115): open `registry.toml` under the requested lock, parse the
config, and load the signing keys in the stored order. -/
def OwnedRegistry.load (directory_path : String) (fs : Fs)
    (lock_type : FileLockType)
    (toml_decode : String → Option OwnedRegistryConfig)
    (pem_decode : String → Option SigningKey) :
    Except LoadRegistryError OwnedRegistry :=
  match fsRead fs "registry.toml" with
  | none => .error (.IoError .NotFound)
  | some config_string =>
    match toml_decode config_string with
    | none => .error .TomlParseError
    | some config =>
      match load_signing_keys fs pem_decode config.signing_key_paths with
      | .error e => .error e
      | .ok signing_keys =>
        .ok { directory_path := directory_path, config := config,
              signing_keys := signing_keys, file_lock := lock_type }

/-- Claim C9: a freshly generated Owned Registry, re-opened from the same
directory via `load` (under either lock type), compares equal to the
in-memory original — where equality compares directory path, config and
signing keys and never the lock — provided the external TOML and PEM
codecs round-trip on the generated config and key, and the embedded
template does not itself ship a `registry.toml` or the key file. -/
theorem C9_generate_load_round_trip (directory_path : String)
    (template : List (String × String)) (hash : RegistryConfigHash)
    (kdf : RegistryConfigKdf) (signing_key : SigningKey)
    (toml_encode : OwnedRegistryConfig → String)
    (toml_decode : String → Option OwnedRegistryConfig)
    (pem_encode : SigningKey → String)
    (pem_decode : String → Option SigningKey) (lock_type : FileLockType)
    (htoml : toml_decode (toml_encode (generated_registry_config hash kdf)) =
      some (generated_registry_config hash kdf))
    (hpem : pem_decode (pem_encode signing_key) = some signing_key)
    (htpl : ∀ e ∈ template, e.1 ≠ "registry.toml" ∧ e.1 ≠ keys_key_path) :
    ∀ reg fs,
      OwnedRegistry.generate directory_path template hash kdf signing_key
        toml_encode pem_encode = (reg, fs) →
      ∃ loaded,
        OwnedRegistry.load directory_path fs lock_type toml_decode pem_decode =
          .ok loaded ∧
        OwnedRegistry.eq loaded reg ∧
        ∀ a b : OwnedRegistry, OwnedRegistry.eq a b ↔
          (a.directory_path = b.directory_path ∧ a.config = b.config ∧
           a.signing_keys = b.signing_keys) := by
  intro reg fs h
  obtain ⟨hreg, hfs⟩ := Prod.mk.injEq _ _ _ _ ▸ h
  subst hreg hfs
  refine ⟨{ directory_path := directory_path,
            config := generated_registry_config hash kdf,
            signing_keys := [signing_key], file_lock := lock_type }, ?_, ?_, ?_⟩
  · unfold OwnedRegistry.load
    rw [fsRead_write_hit]
    simp only [htoml]
    have hkey : fsRead
        (fsWrite
          (fsWrite
            (template.foldl (fun fs e => fsWrite fs e.1 e.2)
              (fsWrite [] "registry.toml" ""))
            keys_key_path (pem_encode signing_key))
          "registry.toml"
          (toml_encode (generated_registry_config hash kdf)))
        keys_key_path = some (pem_encode signing_key) := by
      rw [fsRead_write_miss _ _ _ _ (by decide), fsRead_write_hit]
    have hpaths : (generated_registry_config hash kdf).signing_key_paths =
        [keys_key_path] := rfl
    simp only [hpaths, load_signing_keys, hkey, hpem]
  · exact ⟨rfl, rfl, rfl⟩
  · intro a b
    exact Iff.rfl

/-- Witness for C9 with opaque parameter values and codecs fixed to the
generated instances. -/
theorem C9_generate_load_round_trip_witness :
    ∃ loaded,
      OwnedRegistry.load "registry" (OwnedRegistry.generate "registry" [] ⟨0⟩ ⟨1⟩ ⟨2⟩
          (fun _ => "config") (fun _ => "pem")).2
        .Read (fun _ => some (generated_registry_config ⟨0⟩ ⟨1⟩))
        (fun _ => some ⟨2⟩) = .ok loaded ∧
      OwnedRegistry.eq loaded
        (OwnedRegistry.generate "registry" [] ⟨0⟩ ⟨1⟩ ⟨2⟩
          (fun _ => "config") (fun _ => "pem")).1 := by
  obtain ⟨loaded, hload, heq, _⟩ := C9_generate_load_round_trip "registry" [] ⟨0⟩ ⟨1⟩ ⟨2⟩
    (fun _ => "config") (fun _ => some (generated_registry_config ⟨0⟩ ⟨1⟩))
    (fun _ => "pem") (fun _ => some ⟨2⟩) .Read rfl rfl (by simp)
    (OwnedRegistry.generate "registry" [] ⟨0⟩ ⟨1⟩ ⟨2⟩
      (fun _ => "config") (fun _ => "pem")).1
    (OwnedRegistry.generate "registry" [] ⟨0⟩ ⟨1⟩ ⟨2⟩
      (fun _ => "config") (fun _ => "pem")).2
    rfl
  exact ⟨loaded, hload, heq⟩

end RrrMake
